import Mathlib

/-!
Verification development for the UnnamedVulkanEngine rendering core.

The geometry builder (model.cpp / model.hpp) and the frame lifecycle
(renderer.cpp) are shallowly embedded below.  Floating-point attribute
values are modelled as exact integers: the loader copies them verbatim
from the parsed file and only ever compares them structurally, so the
claims under study never depend on floating-point arithmetic.  The
uint32_t casts of the source are modelled with an explicit mod 2^32.
-/

namespace Engine

/-- Scalar attribute value; floats are copied verbatim and compared
structurally in the source, so an exact value type suffices. -/
abbrev FVal := Int

/-- Three-component vector, mirroring glm::vec3. -/
structure Vec3 where
  x : FVal
  y : FVal
  z : FVal
deriving DecidableEq, Repr

/-- Two-component vector, mirroring glm::vec2. -/
structure Vec2 where
  x : FVal
  y : FVal
deriving DecidableEq, Repr

/-- Vertex attributes, mirroring model::Vertex (model.hpp).  Equality is
structural over all four fields, exactly as Vertex::operator== is. -/
structure Vertex where
  position : Vec3
  color : Vec3
  normal : Vec3
  uv : Vec2
deriving DecidableEq, Repr

/-- Value initialization of a Vertex, mirroring `Vertex vertexInstance = {};`
where every glm vector is zero-initialized. -/
def vertexZero : Vertex :=
  { position := ⟨0, 0, 0⟩, color := ⟨0, 0, 0⟩, normal := ⟨0, 0, 0⟩, uv := ⟨0, 0⟩ }

/-- One raw index triple of the parsed mesh, mirroring tinyobj::index_t:
each component may be -1 when the attribute is absent. -/
structure IndexTriple where
  vertex_index : Int
  normal_index : Int
  texcoord_index : Int
deriving DecidableEq, Repr

/-- Parsed attribute arrays, mirroring tinyobj::attrib_t. -/
structure Attrib where
  vertices : List FVal
  normals : List FVal
  texcoords : List FVal
  colors : List FVal
deriving Repr

/-- Parsed mesh: attribute arrays plus the per-shape index streams,
mirroring the (attrib, shapes) pair produced by tinyobj::LoadObj. -/
structure ObjData where
  attrib : Attrib
  shapes : List (List IndexTriple)
deriving Repr

/-- Builder state, mirroring model::Builder (model.hpp). -/
structure Builder where
  vertices : List Vertex
  indices : List Nat
deriving DecidableEq, Repr

/-- Position of the first occurrence of a vertex in a list; meaningful
when the vertex is a member. -/
def firstIdx : List Vertex → Vertex → Nat
  | [], _ => 0
  | w :: ws, v => if v = w then 0 else firstIdx ws v + 1

/-- Synthesis of one Vertex from one raw index triple: the loop body of
model::Builder::loadModel (model.cpp lines 154-189), translated exactly.
Note that the normal branch of the source reads attrib.vertices (the
position array) at 3*normal_index, not attrib.normals. -/
def synthVertex (attrib : Attrib) (idx : IndexTriple) : Vertex :=
  let v0 := vertexZero
  let v1 :=
    if 0 ≤ idx.vertex_index then
      let p := idx.vertex_index.toNat
      let pos : Vec3 :=
        ⟨attrib.vertices.getD (3 * p + 0) 0,
         attrib.vertices.getD (3 * p + 1) 0,
         attrib.vertices.getD (3 * p + 2) 0⟩
      let colorIndex := 3 * p + 2
      let col : Vec3 :=
        if colorIndex < attrib.colors.length then
          ⟨attrib.colors.getD (colorIndex - 2) 0,
           attrib.colors.getD (colorIndex - 1) 0,
           attrib.colors.getD (colorIndex - 0) 0⟩
        else ⟨1, 1, 1⟩
      { v0 with position := pos, color := col }
    else v0
  let v2 :=
    if 0 ≤ idx.normal_index then
      let n := idx.normal_index.toNat
      { v1 with normal :=
          ⟨attrib.vertices.getD (3 * n + 0) 0,
           attrib.vertices.getD (3 * n + 1) 0,
           attrib.vertices.getD (3 * n + 2) 0⟩ }
    else v1
  if 0 ≤ idx.texcoord_index then
    let t := idx.texcoord_index.toNat
    { v2 with uv :=
        ⟨attrib.texcoords.getD (2 * t + 0) 0,
         attrib.texcoords.getD (2 * t + 1) 0⟩ }
  else v2

/-- Lookup in the dedup map, mirroring unordered_map find by structural
key equality (std::hash specialization plus Vertex::operator==). -/
def lookupV : List (Vertex × Nat) → Vertex → Option Nat
  | [], _ => none
  | p :: ps, v => if p.1 = v then some p.2 else lookupV ps v

/-- One iteration of the dedup loop (model.cpp lines 191-195): a fresh
Vertex is recorded at position vertices.size() (cast to uint32_t) and
appended; the recorded position is appended to the index stream. -/
def processIndex (attrib : Attrib) (st : Builder × List (Vertex × Nat))
    (idx : IndexTriple) : Builder × List (Vertex × Nat) :=
  let v := synthVertex attrib idx
  match lookupV st.2 v with
  | none =>
      let pos := st.1.vertices.length % 2 ^ 32
      (⟨st.1.vertices ++ [v], st.1.indices ++ [pos]⟩, (v, pos) :: st.2)
  | some i => (⟨st.1.vertices, st.1.indices ++ [i]⟩, st.2)

/-- The dedup loop run over a flat stream of raw index triples, starting
from the freshly cleared builder state and the empty dedup map. -/
def runTriples (attrib : Attrib) (ts : List IndexTriple) :
    Builder × List (Vertex × Nat) :=
  ts.foldl (processIndex attrib) (⟨[], []⟩, [])

/-- model::Builder::loadModel (model.cpp lines 136-198).  The external
parse is an input: none models a failed tinyobj::LoadObj with the
accumulated warn and err strings.  On failure the builder throws with
message warn ++ err before touching its state; on success the state is
cleared and rebuilt by the nested per-shape, per-index loop. -/
def loadModel (b : Builder) (parsed : Option ObjData) (warn err : String) :
    Builder × Option String :=
  match parsed with
  | none => (b, some (warn ++ err))
  | some data =>
      let init : Builder × List (Vertex × Nat) := (⟨[], []⟩, [])
      let res := data.shapes.foldl
        (fun st shape => shape.foldl (processIndex data.attrib) st) init
      (res.1, none)

/-- MAX_FRAMES_IN_FLIGHT. Modelled from the spec: the swapchain header is
not among the provided sources; the spec fixes it as a small compile-time
constant, e.g. 2. -/
def MAX_FRAMES_IN_FLIGHT : Nat := 2

/-- Host-visible model state produced by the model constructor. -/
structure ModelState where
  vertexCount : Nat
  indexCount : Nat
  hasIndexBuffer : Bool
deriving DecidableEq, Repr

/-- model::createVertexBuffers (model.cpp lines 43-66), reduced to its
observable host effects: the uint32_t vertex count and whether the
`vertexCount >= 3` assertion passes. -/
def createVertexBuffers (vertices : List Vertex) : Nat × Bool :=
  let vertexCount := vertices.length % 2 ^ 32
  (vertexCount, decide (3 ≤ vertexCount))

/-- model::createIndexBuffer (model.cpp lines 68-92): the uint32_t index
count, the hasIndexBuffer flag, and whether any buffer creation work ran
(the function returns early when the flag is false). -/
def createIndexBuffer (indices : List Nat) : Nat × Bool × Bool :=
  let indexCount := indices.length % 2 ^ 32
  let hasIndexBuffer := decide (0 < indexCount)
  (indexCount, hasIndexBuffer, hasIndexBuffer)

/-- The model constructor (model.cpp lines 22-25): createVertexBuffers
then createIndexBuffer; none models the assertion firing. -/
def modelConstruct (vertices : List Vertex) (indices : List Nat) :
    Option ModelState :=
  let (vertexCount, ok) := createVertexBuffers vertices
  if ok then
    let (indexCount, hasIndexBuffer, _) := createIndexBuffer indices
    some ⟨vertexCount, indexCount, hasIndexBuffer⟩
  else none

/-- A recorded draw command. -/
inductive DrawCmd where
  | drawIndexed (indexCount instanceCount firstIndex vertexOffset firstInstance : Nat)
  | draw (vertexCount instanceCount firstVertex firstInstance : Nat)
deriving DecidableEq, Repr

/-- model::draw (model.cpp lines 104-111). -/
def modelDraw (m : ModelState) : DrawCmd :=
  if m.hasIndexBuffer then .drawIndexed m.indexCount 1 0 0 0
  else .draw m.vertexCount 1 0 0

/-- Window extent as reported by window::getExtent. -/
structure Extent where
  width : Nat
  height : Nat
deriving DecidableEq, Repr

/-- The degeneracy test of the recreation loop (renderer.cpp line 20):
zero width or zero height. -/
def degenerate (e : Extent) : Bool := e.width == 0 || e.height == 0

/-- Observable events of the renderer, in program order. -/
inductive Ev where
  | poll (e : Extent)
  | waitEvents
  | deviceWaitIdle
  | construct (e : Extent)
  | formatError
  | beginRecording (slot : Nat)
  | endRecording (slot : Nat)
  | submit
deriving DecidableEq, Repr

/-- The while loop of renderer::recreateSwapchain (lines 20-23) starting
from the already polled extent cur; the remaining stream lists the
successive results of windowInstance.getExtent.  The loop body re-polls
and then blocks on glfwWaitEvents; it exits once the current extent is
non-degenerate.  Exhausting the stream while still degenerate models the
loop never returning, reported as none. -/
def pollLoop : Extent → List Extent → List Ev × Option Extent
  | cur, rest =>
    if degenerate cur then
      match rest with
      | [] => ([], none)
      | e :: rest2 =>
          let (tr, r) := pollLoop e rest2
          (Ev.poll e :: Ev.waitEvents :: tr, r)
    else ([], some cur)

/-- renderer::recreateSwapchain (renderer.cpp lines 15-40): poll the
extent, loop while degenerate, wait for device idle, construct the new
swapchain, and when an old swapchain existed compare formats and throw on
mismatch.  Result: none when the poll loop never exits within the
observed stream, some none when the format comparison throws, some
(some e) on success with the extent used for the construction. -/
def recreateSwapchain (stream : List Extent) (hasOld formatsMatch : Bool) :
    List Ev × Option (Option Extent) :=
  match stream with
  | [] => ([], none)
  | e0 :: rest =>
      let (tr, r) := pollLoop e0 rest
      let trace0 := Ev.poll e0 :: tr
      match r with
      | none => (trace0, none)
      | some e =>
          let trace1 := trace0 ++ [Ev.deviceWaitIdle, Ev.construct e]
          if hasOld && !formatsMatch then
            (trace1 ++ [Ev.formatError], some none)
          else (trace1, some (some e))

/-- Swapchain status codes relevant to the renderer, mirroring VkResult. -/
inductive VkResult where
  | success
  | suboptimalKHR
  | errorOutOfDateKHR
  | otherFailure (code : Int)
deriving DecidableEq, Repr

/-- Renderer state (renderer.hpp fields visible through renderer.cpp).
swapchainGeneration counts swapchain replacements, identifying the live
instance. -/
structure RendererState where
  isFrameStarted : Bool
  currentImageIndex : Nat
  currentFrameIndex : Nat
  swapchainGeneration : Nat
deriving DecidableEq, Repr

/-- Environment of one beginFrame or endFrame call: the statuses the
swapchain and command-buffer calls report, the window resize flag, the
stream of extents the window would report during a recreation, and
whether a recreated swapchain would keep the same formats. -/
structure FrameEnv where
  acquireResult : VkResult
  acquireImageIndex : Nat
  beginCmdOk : Bool
  endCmdOk : Bool
  submitResult : VkResult
  wasResized : Bool
  windowExtents : List Extent
  formatsMatch : Bool
deriving DecidableEq, Repr

/-- Outcome of renderer::beginFrame. -/
inductive BeginRes where
  | assertFault
  | hung
  | fatalError
  | noFrame (s : RendererState)
  | frame (s : RendererState) (slot : Nat)
deriving DecidableEq, Repr

/-- renderer::beginFrame (renderer.cpp lines 64-90).  The command buffer
for the current frame slot is identified by the slot number. Modelled
from the spec: getCurrentCommandBuffer returns the pool entry for the
current frame-in-flight slot (the renderer header is not among the
provided sources). -/
def beginFrame (s : RendererState) (env : FrameEnv) : List Ev × BeginRes :=
  if s.isFrameStarted then ([], .assertFault)
  else
    match env.acquireResult with
    | .errorOutOfDateKHR =>
        let (tr, r) := recreateSwapchain env.windowExtents true env.formatsMatch
        match r with
        | none => (tr, .hung)
        | some none => (tr, .fatalError)
        | some (some _) =>
            (tr, .noFrame { s with swapchainGeneration := s.swapchainGeneration + 1 })
    | .otherFailure _ => ([], .fatalError)
    | _ =>
        let s2 := { s with
          isFrameStarted := true, currentImageIndex := env.acquireImageIndex }
        if env.beginCmdOk then
          ([Ev.beginRecording s.currentFrameIndex], .frame s2 s.currentFrameIndex)
        else ([Ev.beginRecording s.currentFrameIndex], .fatalError)

/-- Outcome of renderer::endFrame. -/
inductive EndRes where
  | assertFault
  | hung
  | fatalError
  | ok (s : RendererState)
deriving DecidableEq, Repr

/-- renderer::endFrame (renderer.cpp lines 93-112): end recording, submit,
recreate on out-of-date, suboptimal or a window resize, throw on any other
submit failure, then clear isFrameStarted and advance the frame slot
modulo MAX_FRAMES_IN_FLIGHT. -/
def endFrame (s : RendererState) (env : FrameEnv) : List Ev × EndRes :=
  if !s.isFrameStarted then ([], .assertFault)
  else
    let base := [Ev.endRecording s.currentFrameIndex]
    if !env.endCmdOk then (base, .fatalError)
    else
      let base2 := base ++ [Ev.submit]
      let finish := fun (s1 : RendererState) =>
        { s1 with
          isFrameStarted := false,
          currentFrameIndex := (s.currentFrameIndex + 1) % MAX_FRAMES_IN_FLIGHT }
      if env.submitResult = .errorOutOfDateKHR ∨ env.submitResult = .suboptimalKHR ∨
          env.wasResized then
        let (tr, r) := recreateSwapchain env.windowExtents true env.formatsMatch
        match r with
        | none => (base2 ++ tr, .hung)
        | some none => (base2 ++ tr, .fatalError)
        | some (some _) =>
            (base2 ++ tr,
             .ok (finish { s with swapchainGeneration := s.swapchainGeneration + 1 }))
      else if env.submitResult ≠ .success then (base2, .fatalError)
      else (base2, .ok (finish s))

/-- Step function extracting the most recent poll: a poll already found
further right wins, otherwise the current event is examined. -/
def lastPollStep (ev : Ev) (acc : Option Extent) : Option Extent :=
  match acc with
  | some x => some x
  | none =>
      match ev with
      | Ev.poll e => some e
      | _ => none

/-- Extent of the most recent poll event in a trace, when there is one. -/
def lastPollExtent (tr : List Ev) : Option Extent :=
  tr.foldr lastPollStep none

theorem firstIdx_append_left (l l2 : List Vertex) (v : Vertex) (h : v ∈ l) :
    firstIdx (l ++ l2) v = firstIdx l v := by
  induction l with
  | nil => cases h
  | cons w ws ih =>
      by_cases hv : v = w
      · simp [firstIdx, hv]
      · rcases List.mem_cons.mp h with h1 | h1
        · exact absurd h1 hv
        · simp [firstIdx, hv, ih h1]

theorem firstIdx_lt_length (l : List Vertex) (v : Vertex) (h : v ∈ l) :
    firstIdx l v < l.length := by
  induction l with
  | nil => cases h
  | cons w ws ih =>
      by_cases hv : v = w
      · simp [firstIdx, hv]
      · rcases List.mem_cons.mp h with h1 | h1
        · exact absurd h1 hv
        · simp only [firstIdx, if_neg hv, List.length_cons]
          exact Nat.succ_lt_succ (ih h1)

theorem firstIdx_append_fresh (l : List Vertex) (v : Vertex) (h : v ∉ l) :
    firstIdx (l ++ [v]) v = l.length := by
  induction l with
  | nil => simp [firstIdx]
  | cons w ws ih =>
      have hv : v ≠ w := fun e => h (e ▸ List.mem_cons_self w ws)
      have hws : v ∉ ws := fun hm => h (List.mem_cons_of_mem _ hm)
      simp [firstIdx, hv, ih hws]

theorem firstIdx_get? (l : List Vertex) (v : Vertex) (h : v ∈ l) :
    l.get? (firstIdx l v) = some v := by
  induction l with
  | nil => cases h
  | cons w ws ih =>
      by_cases hv : v = w
      · simp [firstIdx, hv]
      · rcases List.mem_cons.mp h with h1 | h1
        · exact absurd h1 hv
        · simp only [firstIdx, if_neg hv]
          exact ih h1

theorem runTriples_append_one (attrib : Attrib) (ts : List IndexTriple)
    (t : IndexTriple) :
    runTriples attrib (ts ++ [t]) =
      processIndex attrib (runTriples attrib ts) t := by
  simp [runTriples, List.foldl_append]

/-- Invariant of the dedup loop: the map records exactly the emitted
vertices together with their first position mod 2^32, every processed
triple has its synthesized vertex among the emitted ones, the index
stream is the per-triple first-position stream, and the vertex count is
bounded by the triple count. -/
theorem runTriples_spec (attrib : Attrib) (ts : List IndexTriple) :
    (∀ v i, lookupV (runTriples attrib ts).2 v = some i →
      v ∈ (runTriples attrib ts).1.vertices ∧
        i = firstIdx (runTriples attrib ts).1.vertices v % 2 ^ 32) ∧
    (∀ v, v ∈ (runTriples attrib ts).1.vertices →
      (lookupV (runTriples attrib ts).2 v).isSome = true) ∧
    (∀ t ∈ ts, synthVertex attrib t ∈ (runTriples attrib ts).1.vertices) ∧
    (runTriples attrib ts).1.indices =
      ts.map (fun t =>
        firstIdx (runTriples attrib ts).1.vertices (synthVertex attrib t) % 2 ^ 32) ∧
    (runTriples attrib ts).1.vertices.length ≤ ts.length := by
  induction ts using List.reverseRecOn with
  | nil =>
      refine ⟨?_, ?_, ?_, ?_, ?_⟩ <;> simp [runTriples, lookupV]
  | append_singleton ts t ih =>
      obtain ⟨ih1, ih2, ih3, ih4, ih5⟩ := ih
      rw [runTriples_append_one]
      cases hl : lookupV (runTriples attrib ts).2 (synthVertex attrib t) with
      | some i =>
          obtain ⟨hmem, hi⟩ := ih1 _ _ hl
          simp only [processIndex, hl]
          refine ⟨ih1, ih2, ?_, ?_, ?_⟩
          · intro t2 ht2
            rcases List.mem_append.mp ht2 with h1 | h1
            · exact ih3 t2 h1
            · rcases List.mem_singleton.mp h1 with rfl
              exact hmem
          · rw [List.map_append, ← ih4]
            simp [hi]
          · simpa using Nat.le_succ_of_le ih5
      | none =>
          have hfresh : synthVertex attrib t ∉ (runTriples attrib ts).1.vertices := by
            intro hm
            have := ih2 _ hm
            rw [hl] at this
            simp at this
          simp only [processIndex, hl]
          refine ⟨?_, ?_, ?_, ?_, ?_⟩
          · intro w j hj
            by_cases hw : synthVertex attrib t = w
            · subst hw
              simp [lookupV] at hj
              refine ⟨List.mem_append_right _ (List.mem_singleton.mpr rfl), ?_⟩
              rw [firstIdx_append_fresh _ _ hfresh]
              omega
            · simp only [lookupV, if_neg hw] at hj
              obtain ⟨hmem, hji⟩ := ih1 _ _ hj
              exact ⟨List.mem_append_left _ hmem,
                by rw [firstIdx_append_left _ _ _ hmem]; exact hji⟩
          · intro w hw
            rcases List.mem_append.mp hw with h1 | h1
            · by_cases hvw : synthVertex attrib t = w
              · simp [lookupV, hvw]
              · simp only [lookupV, if_neg hvw]
                exact ih2 _ h1
            · rcases List.mem_singleton.mp h1 with rfl
              simp [lookupV]
          · intro t2 ht2
            rcases List.mem_append.mp ht2 with h1 | h1
            · exact List.mem_append_left _ (ih3 t2 h1)
            · rcases List.mem_singleton.mp h1 with rfl
              exact List.mem_append_right _ (List.mem_singleton.mpr rfl)
          · rw [List.map_append]
            have hmap : List.map (fun t2 =>
                firstIdx ((runTriples attrib ts).1.vertices ++ [synthVertex attrib t])
                  (synthVertex attrib t2) % 2 ^ 32) ts =
                List.map (fun t2 =>
                  firstIdx (runTriples attrib ts).1.vertices
                    (synthVertex attrib t2) % 2 ^ 32) ts := by
              refine List.map_congr_left ?_
              intro t2 ht2
              rw [firstIdx_append_left _ _ _ (ih3 t2 ht2)]
            rw [hmap, ← ih4]
            simp [firstIdx_append_fresh _ _ hfresh]
          · simpa using Nat.succ_le_succ ih5

theorem runTriples_take_succ (attrib : Attrib) (ts : List IndexTriple)
    (k : Nat) (hk : k < ts.length) :
    runTriples attrib (ts.take (k + 1)) =
      processIndex attrib (runTriples attrib (ts.take k)) (ts.get ⟨k, hk⟩) := by
  rw [← runTriples_append_one, ← List.take_concat_get ts k hk,
    List.concat_eq_append, List.get_eq_getElem]

theorem loadModel_eq_runTriples (b : Builder) (data : ObjData)
    (warn err : String) :
    loadModel b (some data) warn err =
      ((runTriples data.attrib data.shapes.flatten).1, none) := by
  simp [loadModel, runTriples, List.foldl_flatten]

/-- C1: evaluation of the loader at a concrete parsed mesh whose position
array is [1, 2, 3] and whose normal array is [10, 11, 12], with one index
triple using normal index 0.  The synthesized normal is copied from the
position attribute array, not from the normal attribute array: the claim
is right about the intent and the code reads the wrong array. -/
theorem c1_normal_read_from_position_array :
    (synthVertex ⟨[1, 2, 3], [10, 11, 12], [], []⟩ ⟨0, 0, -1⟩).normal = ⟨1, 2, 3⟩ ∧
    (synthVertex ⟨[1, 2, 3], [10, 11, 12], [], []⟩ ⟨0, 0, -1⟩).normal ≠ ⟨10, 11, 12⟩ ∧
    (synthVertex ⟨[1, 2, 3], [10, 11, 12], [], []⟩ ⟨0, -1, -1⟩).normal = ⟨0, 0, 0⟩ := by
  decide

/-- C2: after any successful loadModel call, every element of the index
sequence is strictly below the length of the vertex sequence. -/
theorem c2_indices_lt_vertex_count (b : Builder) (data : ObjData)
    (warn err : String) (b2 : Builder)
    (hload : loadModel b (some data) warn err = (b2, none)) :
    ∀ i ∈ b2.indices, i < b2.vertices.length := by
  rw [loadModel_eq_runTriples] at hload
  obtain ⟨rfl, -⟩ := Prod.mk.injEq .. ▸ hload
  intro i hi
  obtain ⟨-, -, h3, h4, -⟩ := runTriples_spec data.attrib data.shapes.flatten
  rw [h4] at hi
  obtain ⟨t, ht, rfl⟩ := List.mem_map.mp hi
  calc firstIdx (runTriples data.attrib data.shapes.flatten).1.vertices
        (synthVertex data.attrib t) % 2 ^ 32
      ≤ firstIdx (runTriples data.attrib data.shapes.flatten).1.vertices
        (synthVertex data.attrib t) := Nat.mod_le _ _
    _ < (runTriples data.attrib data.shapes.flatten).1.vertices.length :=
        firstIdx_lt_length _ _ (h3 t ht)

theorem c2_indices_lt_vertex_count_witness :
    (1 : Nat) ∈ (loadModel ⟨[], []⟩
        (some ⟨⟨[1, 2, 3, 4, 5, 6], [], [], []⟩,
          [[⟨0, -1, -1⟩, ⟨1, -1, -1⟩, ⟨0, -1, -1⟩]]⟩) "" "").1.indices ∧
    (1 : Nat) < (loadModel ⟨[], []⟩
        (some ⟨⟨[1, 2, 3, 4, 5, 6], [], [], []⟩,
          [[⟨0, -1, -1⟩, ⟨1, -1, -1⟩, ⟨0, -1, -1⟩]]⟩) "" "").1.vertices.length :=
  ⟨by decide,
   c2_indices_lt_vertex_count ⟨[], []⟩
     ⟨⟨[1, 2, 3, 4, 5, 6], [], [], []⟩, [[⟨0, -1, -1⟩, ⟨1, -1, -1⟩, ⟨0, -1, -1⟩]]⟩
     "" "" _ rfl 1 (by decide)⟩

/-- C4: for a raw index triple with nonnegative position index p, the
color is computed through colorIndex = 3p + 2: inside the parsed color
array it is the window at colorIndex-2, colorIndex-1, colorIndex, and
otherwise opaque white (1, 1, 1). -/
theorem c4_color_window (attrib : Attrib) (idx : IndexTriple)
    (hp : 0 ≤ idx.vertex_index) :
    (synthVertex attrib idx).color =
      (if 3 * idx.vertex_index.toNat + 2 < attrib.colors.length then
        Vec3.mk (attrib.colors.getD (3 * idx.vertex_index.toNat + 2 - 2) 0)
          (attrib.colors.getD (3 * idx.vertex_index.toNat + 2 - 1) 0)
          (attrib.colors.getD (3 * idx.vertex_index.toNat + 2) 0)
      else ⟨1, 1, 1⟩) := by
  by_cases hn : 0 ≤ idx.normal_index <;> by_cases ht : 0 ≤ idx.texcoord_index <;>
    simp only [synthVertex, hp, hn, ht, if_true, if_false, ite_true, ite_false,
      Nat.sub_zero]

theorem c4_color_window_witness :
    (0 : Int) ≤ (0 : Int) ∧
    (synthVertex ⟨[1, 2, 3], [], [], [7, 8, 9]⟩ ⟨0, -1, -1⟩).color = ⟨7, 8, 9⟩ ∧
    (synthVertex ⟨[1, 2, 3], [], [], []⟩ ⟨0, -1, -1⟩).color = ⟨1, 1, 1⟩ := by
  refine ⟨le_refl 0, ?_, ?_⟩
  · rw [c4_color_window ⟨[1, 2, 3], [], [], [7, 8, 9]⟩ ⟨0, -1, -1⟩ (by decide)]
    decide
  · rw [c4_color_window ⟨[1, 2, 3], [], [], []⟩ ⟨0, -1, -1⟩ (by decide)]
    decide

/-- C5: constructing a model from fewer than 3 vertices makes the
vertex-count assertion fail and the construction never completes; with at
least 3 vertices (below the uint32_t range) the assertion passes. -/
theorem c5_min_vertex_assertion (vertices : List Vertex) (indices : List Nat) :
    (vertices.length < 3 → (createVertexBuffers vertices).2 = false ∧
      modelConstruct vertices indices = none) ∧
    (3 ≤ vertices.length → vertices.length < 2 ^ 32 →
      (createVertexBuffers vertices).2 = true ∧
      (modelConstruct vertices indices).isSome = true) := by
  constructor
  · intro h3
    have hd : decide (3 ≤ vertices.length % 2 ^ 32) = false := by
      rw [decide_eq_false_iff_not]
      omega
    constructor
    · exact hd
    · unfold modelConstruct
      simp [createVertexBuffers, hd]
      omega
  · intro h3 hlt
    have hd : decide (3 ≤ vertices.length % 2 ^ 32) = true := by
      rw [decide_eq_true_eq]
      omega
    constructor
    · exact hd
    · unfold modelConstruct
      simp [createVertexBuffers, hd]
      omega

theorem c5_min_vertex_assertion_witness :
    (createVertexBuffers (List.replicate 2 vertexZero)).2 = false ∧
    modelConstruct (List.replicate 2 vertexZero) [] = none ∧
    (createVertexBuffers (List.replicate 3 vertexZero)).2 = true ∧
    (modelConstruct (List.replicate 3 vertexZero) []).isSome = true := by
  obtain ⟨h1, h2⟩ :=
    (c5_min_vertex_assertion (List.replicate 2 vertexZero) []).1 (by decide)
  obtain ⟨h3, h4⟩ :=
    (c5_min_vertex_assertion (List.replicate 3 vertexZero) []).2
      (by decide) (by decide)
  exact ⟨h1, h2, h3, h4⟩

/-- C6: hasIndexBuffer is set iff the index list is non-empty, index
buffer creation work runs only when the flag is set, and draw issues one
indexed draw (indexCount, instance count 1, zero offsets) when the flag
is set and one non-indexed draw (vertexCount, instance count 1, zero
offsets) otherwise. -/
theorem c6_index_buffer_flag_and_draw (vertices : List Vertex)
    (indices : List Nat) (m : ModelState)
    (hm : modelConstruct vertices indices = some m)
    (hbound : indices.length < 2 ^ 32) :
    (m.hasIndexBuffer = true ↔ indices ≠ []) ∧
    (createIndexBuffer indices).2.2 = m.hasIndexBuffer ∧
    (m.hasIndexBuffer = true → modelDraw m = .drawIndexed m.indexCount 1 0 0 0) ∧
    (m.hasIndexBuffer = false → modelDraw m = .draw m.vertexCount 1 0 0) := by
  have hflat : modelConstruct vertices indices =
      if (createVertexBuffers vertices).2 = true then
        some ⟨(createVertexBuffers vertices).1, (createIndexBuffer indices).1,
          (createIndexBuffer indices).2.1⟩
      else none := rfl
  rw [hflat] at hm
  by_cases hok : (createVertexBuffers vertices).2 = true
  · rw [if_pos hok, Option.some.injEq] at hm
    subst hm
    refine ⟨?_, rfl, ?_, ?_⟩
    · show decide (0 < indices.length % 2 ^ 32) = true ↔ indices ≠ []
      rw [decide_eq_true_eq, ← List.length_pos_iff_ne_nil]
      omega
    · intro hflag
      replace hflag : (createIndexBuffer indices).2.1 = true := hflag
      simp [modelDraw, hflag]
    · intro hflag
      replace hflag : (createIndexBuffer indices).2.1 = false := hflag
      simp [modelDraw, hflag]
  · rw [if_neg hok] at hm
    cases hm

theorem c6_index_buffer_flag_and_draw_witness :
    (createIndexBuffer []).2.2 = (ModelState.mk 3 0 false).hasIndexBuffer ∧
    modelDraw (ModelState.mk 3 0 false) = .draw 3 1 0 0 ∧
    (ModelState.mk 3 3 true).hasIndexBuffer = true ∧
    modelDraw (ModelState.mk 3 3 true) = .drawIndexed 3 1 0 0 0 := by
  have h1 := c6_index_buffer_flag_and_draw (List.replicate 3 vertexZero) []
    (ModelState.mk 3 0 false) (by decide) (by decide)
  have h2 := c6_index_buffer_flag_and_draw (List.replicate 3 vertexZero) [0, 1, 2]
    (ModelState.mk 3 3 true) (by decide) (by decide)
  exact ⟨h1.2.1, h1.2.2.2 rfl, h2.1.mpr (by decide), h2.2.2.1 rfl⟩

/-- C3: over the flattened triple stream of a load, two triples whose
synthesized vertices are structurally equal receive the same emitted
index, referencing the single vertex entry holding that value; a
synthesized vertex not yet emitted is appended at the end of the vertex
sequence and its new position is emitted.  The bound keeps the uint32_t
position cast of the source exact. -/
theorem c3_dedup (data : ObjData) (k l : Nat)
    (hk : k < data.shapes.flatten.length) (hl : l < data.shapes.flatten.length)
    (hbound : data.shapes.flatten.length < 2 ^ 32) :
    (synthVertex data.attrib (data.shapes.flatten.get ⟨k, hk⟩) =
        synthVertex data.attrib (data.shapes.flatten.get ⟨l, hl⟩) →
      ∃ i, (runTriples data.attrib data.shapes.flatten).1.indices.get? k = some i ∧
        (runTriples data.attrib data.shapes.flatten).1.indices.get? l = some i ∧
        (runTriples data.attrib data.shapes.flatten).1.vertices.get? i =
          some (synthVertex data.attrib (data.shapes.flatten.get ⟨k, hk⟩))) ∧
    (synthVertex data.attrib (data.shapes.flatten.get ⟨k, hk⟩) ∉
        (runTriples data.attrib (data.shapes.flatten.take k)).1.vertices →
      (runTriples data.attrib (data.shapes.flatten.take (k + 1))).1.vertices =
        (runTriples data.attrib (data.shapes.flatten.take k)).1.vertices ++
          [synthVertex data.attrib (data.shapes.flatten.get ⟨k, hk⟩)] ∧
      (runTriples data.attrib (data.shapes.flatten.take (k + 1))).1.indices =
        (runTriples data.attrib (data.shapes.flatten.take k)).1.indices ++
          [(runTriples data.attrib (data.shapes.flatten.take k)).1.vertices.length]) := by
  obtain ⟨h1, h2, h3, h4, h5⟩ := runTriples_spec data.attrib data.shapes.flatten
  constructor
  · intro heq
    refine ⟨firstIdx (runTriples data.attrib data.shapes.flatten).1.vertices
      (synthVertex data.attrib (data.shapes.flatten.get ⟨k, hk⟩)) % 2 ^ 32, ?_, ?_, ?_⟩
    · rw [h4, List.get?_map, List.get?_eq_get hk]
      rfl
    · rw [h4, List.get?_map, List.get?_eq_get hl, heq]
      rfl
    · have hvmem : synthVertex data.attrib (data.shapes.flatten.get ⟨k, hk⟩) ∈
          (runTriples data.attrib data.shapes.flatten).1.vertices :=
        h3 _ (List.get_mem data.shapes.flatten k hk)
      have hflt : firstIdx (runTriples data.attrib data.shapes.flatten).1.vertices
          (synthVertex data.attrib (data.shapes.flatten.get ⟨k, hk⟩)) <
          (runTriples data.attrib data.shapes.flatten).1.vertices.length :=
        firstIdx_lt_length _ _ hvmem
      rw [Nat.mod_eq_of_lt (by omega)]
      exact firstIdx_get? _ _ hvmem
  · intro hfresh
    obtain ⟨g1, g2, g3, g4, g5⟩ :=
      runTriples_spec data.attrib (data.shapes.flatten.take k)
    rw [runTriples_take_succ data.attrib data.shapes.flatten k hk]
    cases hlk : lookupV (runTriples data.attrib (data.shapes.flatten.take k)).2
        (synthVertex data.attrib (data.shapes.flatten.get ⟨k, hk⟩)) with
    | some i => exact absurd (g1 _ _ hlk).1 hfresh
    | none =>
        have hlen : (runTriples data.attrib (data.shapes.flatten.take k)).1.vertices.length <
            2 ^ 32 := by
          have := List.length_take k data.shapes.flatten
          omega
        simp only [processIndex, hlk]
        constructor
        · simp
        · rw [Nat.mod_eq_of_lt hlen]

theorem c3_dedup_witness :
    (runTriples ⟨[1, 2, 3, 4, 5, 6], [], [], []⟩
        [⟨0, -1, -1⟩, ⟨1, -1, -1⟩, ⟨0, -1, -1⟩]).1.indices.get? 2 =
      (runTriples ⟨[1, 2, 3, 4, 5, 6], [], [], []⟩
        [⟨0, -1, -1⟩, ⟨1, -1, -1⟩, ⟨0, -1, -1⟩]).1.indices.get? 0 ∧
    (runTriples ⟨[1, 2, 3, 4, 5, 6], [], [], []⟩
        ([⟨0, -1, -1⟩, ⟨1, -1, -1⟩, ⟨0, -1, -1⟩].take 2)).1.vertices =
      (runTriples ⟨[1, 2, 3, 4, 5, 6], [], [], []⟩
        ([⟨0, -1, -1⟩, ⟨1, -1, -1⟩, ⟨0, -1, -1⟩].take 1)).1.vertices ++
        [synthVertex ⟨[1, 2, 3, 4, 5, 6], [], [], []⟩ ⟨1, -1, -1⟩] ∧
    (runTriples ⟨[1, 2, 3, 4, 5, 6], [], [], []⟩
        ([⟨0, -1, -1⟩, ⟨1, -1, -1⟩, ⟨0, -1, -1⟩].take 2)).1.indices =
      (runTriples ⟨[1, 2, 3, 4, 5, 6], [], [], []⟩
        ([⟨0, -1, -1⟩, ⟨1, -1, -1⟩, ⟨0, -1, -1⟩].take 1)).1.indices ++
        [(runTriples ⟨[1, 2, 3, 4, 5, 6], [], [], []⟩
          ([⟨0, -1, -1⟩, ⟨1, -1, -1⟩, ⟨0, -1, -1⟩].take 1)).1.vertices.length] := by
  obtain ⟨i, hi1, hi2, -⟩ :=
    (c3_dedup ⟨⟨[1, 2, 3, 4, 5, 6], [], [], []⟩,
      [[⟨0, -1, -1⟩, ⟨1, -1, -1⟩, ⟨0, -1, -1⟩]]⟩ 2 0
      (by decide) (by decide) (by decide)).1 (by decide)
  obtain ⟨hb1, hb2⟩ :=
    (c3_dedup ⟨⟨[1, 2, 3, 4, 5, 6], [], [], []⟩,
      [[⟨0, -1, -1⟩, ⟨1, -1, -1⟩, ⟨0, -1, -1⟩]]⟩ 1 0
      (by decide) (by decide) (by decide)).2 (by decide)
  exact ⟨hi1.trans hi2.symm, hb1, hb2⟩

/-- C10: a failed parse makes loadModel report the descriptive error
warn ++ err and leaves the builder state exactly as it was: the clear of
the previous state happens only after a successful parse. -/
theorem c10_failed_load_atomic (b : Builder) (warn err : String) :
    loadModel b none warn err = (b, some (warn ++ err)) := rfl

theorem pollLoop_events (cur : Extent) (rest : List Extent) :
    ∀ ev ∈ (pollLoop cur rest).1,
      ev = Ev.waitEvents ∨ ∃ e2, ev = Ev.poll e2 := by
  induction rest generalizing cur with
  | nil =>
      intro ev hev
      by_cases hd : degenerate cur <;> simp [pollLoop, hd] at hev
  | cons e1 rest2 ih =>
      intro ev hev
      by_cases hd : degenerate cur
      · rcases hpl : pollLoop e1 rest2 with ⟨tr, r⟩
        simp only [pollLoop, hd, if_true, hpl] at hev
        rcases List.mem_cons.mp hev with rfl | hev2
        · exact Or.inr ⟨e1, rfl⟩
        rcases List.mem_cons.mp hev2 with rfl | hev3
        · exact Or.inl rfl
        · have := ih e1 ev
          rw [hpl] at this
          exact this hev3
      · simp [pollLoop, hd] at hev

theorem recreate_no_beginRecording (stream : List Extent)
    (hasOld fm : Bool) (slot : Nat) :
    Ev.beginRecording slot ∉ (recreateSwapchain stream hasOld fm).1 := by
  cases stream with
  | nil => simp [recreateSwapchain]
  | cons e0 rest =>
      rcases hpl : pollLoop e0 rest with ⟨tr, r⟩
      have hev : ∀ ev ∈ tr, ev = Ev.waitEvents ∨ ∃ e2, ev = Ev.poll e2 := by
        have := pollLoop_events e0 rest
        rw [hpl] at this
        exact this
      intro hmem
      cases r with
      | none =>
          simp only [recreateSwapchain, hpl] at hmem
          rcases List.mem_cons.mp hmem with h1 | h1
          · cases h1
          · rcases hev _ h1 with h2 | ⟨e2, h2⟩ <;> cases h2
      | some e =>
          simp only [recreateSwapchain, hpl] at hmem
          by_cases hb : (hasOld && !fm) = true
          · simp [hb] at hmem
            rcases hev _ hmem with h2 | ⟨e3, h2⟩ <;> simp at h2
          · simp [hb] at hmem
            rcases hev _ hmem with h2 | ⟨e3, h2⟩ <;> simp at h2

/-- C7: beginFrame faults when a frame is already open; on out-of-date
acquisition it runs swapchain recreation and reports no frame, leaving
isFrameStarted false and never beginning command recording; any status
other than success or suboptimal is fatal; on success or suboptimal it
marks the frame open, begins recording on the current frame slot's
command buffer and returns that buffer. -/
theorem c7_beginFrame (s : RendererState) (env : FrameEnv)
    (c : Int) (e2 : Extent) :
    (s.isFrameStarted = true → beginFrame s env = ([], .assertFault)) ∧
    (s.isFrameStarted = false → env.acquireResult = .errorOutOfDateKHR →
      (beginFrame s env).1 =
        (recreateSwapchain env.windowExtents true env.formatsMatch).1 ∧
      (∀ slot, Ev.beginRecording slot ∉ (beginFrame s env).1) ∧
      ((recreateSwapchain env.windowExtents true env.formatsMatch).2 =
          some (some e2) →
        (beginFrame s env).2 =
          .noFrame { s with swapchainGeneration := s.swapchainGeneration + 1 })) ∧
    (s.isFrameStarted = false → env.acquireResult = .otherFailure c →
      (beginFrame s env).2 = .fatalError) ∧
    (s.isFrameStarted = false →
      (env.acquireResult = .success ∨ env.acquireResult = .suboptimalKHR) →
      env.beginCmdOk = true →
      beginFrame s env =
        ([Ev.beginRecording s.currentFrameIndex],
         .frame { s with isFrameStarted := true,
                         currentImageIndex := env.acquireImageIndex }
           s.currentFrameIndex)) := by
  refine ⟨?_, ?_, ?_, ?_⟩
  · intro hf
    simp [beginFrame, hf]
  · intro hf hood
    rcases hr : recreateSwapchain env.windowExtents true env.formatsMatch
      with ⟨tr, r⟩
    refine ⟨?_, ?_, ?_⟩
    · simp only [beginFrame, hf, hood, hr, Bool.false_eq_true, if_false]
      cases r with
      | none => rfl
      | some x => cases x <;> rfl
    · intro slot
      have := recreate_no_beginRecording env.windowExtents true env.formatsMatch slot
      rw [hr] at this
      simp only [beginFrame, hf, hood, hr, Bool.false_eq_true, if_false]
      cases r with
      | none => exact this
      | some x => cases x <;> exact this
    · intro hsome
      replace hsome : r = some (some e2) := hsome
      subst hsome
      simp [beginFrame, hf, hood, hr]
  · intro hf hoth
    simp [beginFrame, hf, hoth]
  · intro hf hsucc hcmd
    rcases hsucc with h | h <;> simp [beginFrame, hf, h, hcmd]

theorem c7_beginFrame_witness :
    beginFrame ⟨true, 0, 0, 0⟩
      ⟨.success, 0, true, true, .success, false, [], true⟩ =
      ([], .assertFault) ∧
    (beginFrame ⟨false, 0, 1, 5⟩
        ⟨.errorOutOfDateKHR, 0, true, true, .success, false,
          [⟨0, 0⟩, ⟨640, 480⟩], true⟩).1 =
      (recreateSwapchain [⟨0, 0⟩, ⟨640, 480⟩] true true).1 ∧
    Ev.beginRecording 1 ∉ (beginFrame ⟨false, 0, 1, 5⟩
      ⟨.errorOutOfDateKHR, 0, true, true, .success, false,
        [⟨0, 0⟩, ⟨640, 480⟩], true⟩).1 ∧
    (beginFrame ⟨false, 0, 1, 5⟩
        ⟨.errorOutOfDateKHR, 0, true, true, .success, false,
          [⟨0, 0⟩, ⟨640, 480⟩], true⟩).2 = .noFrame ⟨false, 0, 1, 6⟩ ∧
    (beginFrame ⟨false, 0, 1, 5⟩
        ⟨.otherFailure 7, 0, true, true, .success, false, [], true⟩).2 =
      .fatalError ∧
    beginFrame ⟨false, 3, 1, 5⟩
        ⟨.success, 2, true, true, .success, false, [], true⟩ =
      ([Ev.beginRecording 1], .frame ⟨true, 2, 1, 5⟩ 1) := by
  have h1 := (c7_beginFrame ⟨true, 0, 0, 0⟩
    ⟨.success, 0, true, true, .success, false, [], true⟩ 0 ⟨0, 0⟩).1 rfl
  have h2 := (c7_beginFrame ⟨false, 0, 1, 5⟩
    ⟨.errorOutOfDateKHR, 0, true, true, .success, false,
      [⟨0, 0⟩, ⟨640, 480⟩], true⟩ 0 ⟨640, 480⟩).2.1 rfl rfl
  have h3 := (c7_beginFrame ⟨false, 0, 1, 5⟩
    ⟨.otherFailure 7, 0, true, true, .success, false, [], true⟩ 7 ⟨0, 0⟩).2.2.1
    rfl rfl
  have h4 := (c7_beginFrame ⟨false, 3, 1, 5⟩
    ⟨.success, 2, true, true, .success, false, [], true⟩ 0 ⟨0, 0⟩).2.2.2
    rfl (Or.inl rfl) rfl
  exact ⟨h1, h2.1, h2.2.1 1, h2.2.2 (by decide), h3, h4⟩

/-- C8: every endFrame call that completes without throwing clears
isFrameStarted and advances the frame slot index by exactly one modulo
MAX_FRAMES_IN_FLIGHT, so the slot index always stays below
MAX_FRAMES_IN_FLIGHT and follows the modular cycle, whether or not
recreation occurred during the call. -/
theorem c8_endFrame_advance (s : RendererState) (env : FrameEnv)
    (tr : List Ev) (s2 : RendererState)
    (h : endFrame s env = (tr, .ok s2)) :
    s2.currentFrameIndex = (s.currentFrameIndex + 1) % MAX_FRAMES_IN_FLIGHT ∧
    s2.isFrameStarted = false ∧
    s2.currentFrameIndex < MAX_FRAMES_IN_FLIGHT := by
  unfold endFrame at h
  by_cases hf : s.isFrameStarted
  · rw [hf] at h
    simp only [Bool.not_true, Bool.false_eq_true, if_false] at h
    by_cases hc : env.endCmdOk
    · rw [hc] at h
      simp only [Bool.not_true, Bool.false_eq_true, if_false] at h
      by_cases hsub : env.submitResult = VkResult.errorOutOfDateKHR ∨
          env.submitResult = VkResult.suboptimalKHR ∨ env.wasResized = true
      · rw [if_pos hsub] at h
        rcases hr : recreateSwapchain env.windowExtents true env.formatsMatch
          with ⟨tr2, r⟩
        rw [hr] at h
        cases r with
        | none => simp at h
        | some x =>
            cases x with
            | none => simp at h
            | some e =>
                simp only [Prod.mk.injEq, EndRes.ok.injEq] at h
                obtain ⟨-, rfl⟩ := h
                refine ⟨rfl, rfl, Nat.mod_lt _ (by norm_num [MAX_FRAMES_IN_FLIGHT])⟩
      · rw [if_neg hsub] at h
        by_cases hok : env.submitResult = VkResult.success
        · simp only [hok, ne_eq, not_true_eq_false, Bool.false_eq_true, if_false,
            ite_false, Prod.mk.injEq, EndRes.ok.injEq] at h
          rcases h with ⟨-, rfl⟩
          exact ⟨rfl, rfl, Nat.mod_lt _ (by norm_num [MAX_FRAMES_IN_FLIGHT])⟩
        · rw [if_pos hok] at h
          simp at h
    · simp [hc] at h
  · simp [hf] at h

theorem lastPollStep_some (ev : Ev) (x : Extent) :
    lastPollStep ev (some x) = some x := rfl

theorem lastPollStep_wait (acc : Option Extent) :
    lastPollStep Ev.waitEvents acc = acc := by
  cases acc <;> rfl

theorem foldr_lastPollStep_some (tr : List Ev) (x : Extent) :
    tr.foldr lastPollStep (some x) = some x := by
  induction tr with
  | nil => rfl
  | cons ev tr ih => simp [List.foldr_cons, ih, lastPollStep_some]

theorem lastPoll_append (xs ys : List Ev) :
    lastPollExtent (xs ++ ys) =
      match lastPollExtent ys with
      | some x => some x
      | none => lastPollExtent xs := by
  show (xs ++ ys).foldr lastPollStep none = _
  rw [List.foldr_append]
  cases h : lastPollExtent ys with
  | some x =>
      rw [show ys.foldr lastPollStep none = some x from h]
      exact foldr_lastPollStep_some xs x
  | none =>
      rw [show ys.foldr lastPollStep none = none from h]
      rfl

theorem pollLoop_some (cur : Extent) (rest : List Extent) (e : Extent)
    (h : (pollLoop cur rest).2 = some e) :
    degenerate e = false ∧
    lastPollExtent (Ev.poll cur :: (pollLoop cur rest).1) = some e ∧
    (∀ e2, Ev.poll e2 ∈ Ev.poll cur :: (pollLoop cur rest).1 →
      degenerate e2 = true ∨ e2 = e) := by
  induction rest generalizing cur with
  | nil =>
      by_cases hd : degenerate cur
      · simp [pollLoop, hd] at h
      · simp only [pollLoop, hd, Bool.false_eq_true, if_false] at h ⊢
        simp only [Option.some.injEq] at h
        subst h
        refine ⟨by simpa using hd, rfl, ?_⟩
        intro e2 he2
        rcases List.mem_cons.mp he2 with h1 | h1
        · rcases Ev.poll.inj h1 with rfl
          exact Or.inr rfl
        · simp at h1
  | cons e1 rest2 ih =>
      by_cases hd : degenerate cur
      · rcases hpl : pollLoop e1 rest2 with ⟨tr, r⟩
        have hih := ih e1
        rw [hpl] at hih
        simp only [pollLoop, hd, if_true, hpl] at h ⊢
        subst h
        obtain ⟨g1, g2, g3⟩ := hih rfl
        refine ⟨g1, ?_, ?_⟩
        · simp only [lastPollExtent, List.foldr_cons] at g2 ⊢
          rw [lastPollStep_wait]
          rw [show lastPollStep (Ev.poll e1) (tr.foldr lastPollStep none) = some e
            from g2]
          rfl
        · intro e2 he2
          rcases List.mem_cons.mp he2 with h1 | h1
          · rcases Ev.poll.inj h1 with rfl
            exact Or.inl hd
          rcases List.mem_cons.mp h1 with h2 | h2
          · exact g3 e2 (h2 ▸ List.mem_cons_self _ _)
          rcases List.mem_cons.mp h2 with h3 | h3
          · cases h3
          · exact g3 e2 (List.mem_cons_of_mem _ h3)
      · simp only [pollLoop, hd, Bool.false_eq_true, if_false] at h ⊢
        simp only [Option.some.injEq] at h
        subst h
        refine ⟨by simpa using hd, rfl, ?_⟩
        intro e2 he2
        rcases List.mem_cons.mp he2 with h1 | h1
        · rcases Ev.poll.inj h1 with rfl
          exact Or.inr rfl
        · simp at h1

theorem recreate_construct_imp_success (stream : List Extent)
    (hasOld fm : Bool) (e : Extent)
    (h : Ev.construct e ∈ (recreateSwapchain stream hasOld fm).1) :
    ∃ x, (recreateSwapchain stream hasOld fm).2 = some x := by
  cases stream with
  | nil => simp [recreateSwapchain] at h
  | cons e0 rest =>
      rcases hpl : pollLoop e0 rest with ⟨tr, r⟩
      have hev : ∀ ev ∈ tr, ev = Ev.waitEvents ∨ ∃ e2, ev = Ev.poll e2 := by
        have := pollLoop_events e0 rest
        rw [hpl] at this
        exact this
      cases r with
      | none =>
          simp only [recreateSwapchain, hpl] at h
          rcases List.mem_cons.mp h with h1 | h1
          · cases h1
          · rcases hev _ h1 with h2 | ⟨e2, h2⟩ <;> simp [h2] at h1 <;> cases h2
      | some e3 =>
          simp only [recreateSwapchain, hpl]
          split <;> exact ⟨_, rfl⟩

/-- Shape of a successful recreation trace: a prefix of polls and waits
whose most recent poll is the non-degenerate extent used to construct the
swapchain, then the device-idle wait, then the construction, then at most
a format-mismatch failure. -/
theorem recreate_some_shape (stream : List Extent) (hasOld fm : Bool)
    (x : Option Extent)
    (h : (recreateSwapchain stream hasOld fm).2 = some x) :
    ∃ e pfx tail,
      (recreateSwapchain stream hasOld fm).1 =
        pfx ++ Ev.deviceWaitIdle :: Ev.construct e :: tail ∧
      degenerate e = false ∧
      lastPollExtent pfx = some e ∧
      (∀ e2, Ev.poll e2 ∈ pfx → degenerate e2 = true ∨ e2 = e) ∧
      (∀ ev ∈ pfx, ev = Ev.waitEvents ∨ ∃ e2, ev = Ev.poll e2) ∧
      (∀ ev ∈ tail, ev = Ev.formatError) := by
  cases stream with
  | nil => simp [recreateSwapchain] at h
  | cons e0 rest =>
      rcases hpl : pollLoop e0 rest with ⟨tr, r⟩
      cases r with
      | none => simp [recreateSwapchain, hpl] at h
      | some e =>
          have hps := pollLoop_some e0 rest e
          rw [hpl] at hps
          obtain ⟨g1, g2, g3⟩ := hps rfl
          have hev : ∀ ev ∈ tr, ev = Ev.waitEvents ∨ ∃ e2, ev = Ev.poll e2 := by
            have := pollLoop_events e0 rest
            rw [hpl] at this
            exact this
          refine ⟨e, Ev.poll e0 :: tr, ?_⟩
          simp only [recreateSwapchain, hpl]
          by_cases hb : (hasOld && !fm) = true
      <;> simp only [hb, if_true, Bool.false_eq_true, if_false]
          · refine ⟨[Ev.formatError], by simp, g1, g2, ?_, ?_, by simp⟩
            · intro e2 he2
              exact g3 e2 he2
            · intro ev hev2
              rcases List.mem_cons.mp hev2 with h1 | h1
              · exact Or.inr ⟨e0, h1⟩
              · exact hev ev h1
          · refine ⟨[], by simp, g1, g2, ?_, ?_, by simp⟩
            · intro e2 he2
              exact g3 e2 he2
            · intro ev hev2
              rcases List.mem_cons.mp hev2 with h1 | h1
              · exact Or.inr ⟨e0, h1⟩
              · exact hev ev h1

theorem single_occ_split {α : Type} (a : α) (xs ys : List α) :
    ∀ pre suf : List α, a ∉ xs → a ∉ ys →
      xs ++ a :: ys = pre ++ a :: suf → xs = pre ∧ ys = suf := by
  induction xs with
  | nil =>
      intro pre suf hxa hya h
      cases pre with
      | nil =>
          simp only [List.nil_append, List.cons.injEq, true_and] at h
          exact ⟨rfl, h⟩
      | cons p ps =>
          simp only [List.nil_append, List.cons_append, List.cons.injEq] at h
          obtain ⟨rfl, h2⟩ := h
          exact absurd (h2 ▸ List.mem_append_right ps (List.mem_cons_self a suf)) hya
  | cons z zs ih =>
      intro pre suf hxa hya h
      cases pre with
      | nil =>
          simp only [List.cons_append, List.nil_append, List.cons.injEq] at h
          obtain ⟨rfl, -⟩ := h
          exact absurd (List.mem_cons_self z zs) hxa
      | cons p ps =>
          simp only [List.cons_append, List.cons.injEq] at h
          obtain ⟨rfl, h2⟩ := h
          obtain ⟨h3, h4⟩ :=
            ih ps suf (fun hm => hxa (List.mem_cons_of_mem _ hm)) hya h2
          exact ⟨by rw [h3], h4⟩

/-- C9: whenever a recreation trace contains a swapchain construction,
the constructed extent is not degenerate, it is exactly the most recently
polled extent, the device-idle wait precedes the construction, and every
earlier poll was either degenerate (the loop kept blocking on events and
re-polling) or already the final non-degenerate extent. -/
theorem c9_no_construct_on_degenerate (stream : List Extent)
    (hasOld fm : Bool) (pre suf : List Ev) (e : Extent)
    (hsplit : (recreateSwapchain stream hasOld fm).1 =
      pre ++ Ev.construct e :: suf) :
    degenerate e = false ∧
    Ev.deviceWaitIdle ∈ pre ∧
    lastPollExtent pre = some e ∧
    (∀ e2, Ev.poll e2 ∈ pre → degenerate e2 = true ∨ e2 = e) := by
  have hmem : Ev.construct e ∈ (recreateSwapchain stream hasOld fm).1 := by
    rw [hsplit]
    exact List.mem_append_right _ (List.mem_cons_self _ _)
  obtain ⟨x, hx⟩ := recreate_construct_imp_success stream hasOld fm e hmem
  obtain ⟨e9, pfx, tail, htr, hdeg, hlast, hpolls, hpfx, htail⟩ :=
    recreate_some_shape stream hasOld fm x hx
  have he9 : e = e9 := by
    rw [htr] at hmem
    rcases List.mem_append.mp hmem with h1 | h1
    · rcases hpfx _ h1 with h2 | ⟨e2, h2⟩ <;> cases h2
    rcases List.mem_cons.mp h1 with h2 | h2
    · cases h2
    rcases List.mem_cons.mp h2 with h3 | h3
    · exact Ev.construct.inj h3
    · cases htail _ h3
  subst he9
  have hnx : Ev.construct e ∉ pfx ++ [Ev.deviceWaitIdle] := by
    intro hm
    rcases List.mem_append.mp hm with h1 | h1
    · rcases hpfx _ h1 with h2 | ⟨e2, h2⟩ <;> cases h2
    · rcases List.mem_singleton.mp h1 with h2
      cases h2
  have hny : Ev.construct e ∉ tail := by
    intro hm
    cases htail _ hm
  have heq : (pfx ++ [Ev.deviceWaitIdle]) ++ Ev.construct e :: tail =
      pre ++ Ev.construct e :: suf := by
    rw [← hsplit, htr]
    simp
  obtain ⟨hpre, -⟩ := single_occ_split (Ev.construct e)
    (pfx ++ [Ev.deviceWaitIdle]) tail pre suf hnx hny heq
  subst hpre
  refine ⟨hdeg, List.mem_append_right _ (List.mem_singleton.mpr rfl), ?_, ?_⟩
  · rw [lastPoll_append]
    exact hlast
  · intro e2 he2
    rcases List.mem_append.mp he2 with h1 | h1
    · exact hpolls e2 h1
    · rcases List.mem_singleton.mp h1 with h2
      cases h2

theorem c9_no_construct_on_degenerate_witness :
    degenerate ⟨800, 600⟩ = false ∧
    Ev.deviceWaitIdle ∈ [Ev.poll ⟨0, 0⟩, Ev.poll ⟨0, 0⟩, Ev.waitEvents,
      Ev.poll ⟨800, 600⟩, Ev.waitEvents, Ev.deviceWaitIdle] ∧
    lastPollExtent [Ev.poll ⟨0, 0⟩, Ev.poll ⟨0, 0⟩, Ev.waitEvents,
      Ev.poll ⟨800, 600⟩, Ev.waitEvents, Ev.deviceWaitIdle] =
      some ⟨800, 600⟩ := by
  have h := c9_no_construct_on_degenerate
    [⟨0, 0⟩, ⟨0, 0⟩, ⟨800, 600⟩] true true
    [Ev.poll ⟨0, 0⟩, Ev.poll ⟨0, 0⟩, Ev.waitEvents, Ev.poll ⟨800, 600⟩,
      Ev.waitEvents, Ev.deviceWaitIdle] [] ⟨800, 600⟩ (by decide)
  exact ⟨h.1, h.2.1, h.2.2.1⟩

theorem c8_endFrame_advance_witness :
    (RendererState.mk false 0 0 6).currentFrameIndex =
      ((RendererState.mk true 0 1 5).currentFrameIndex + 1) %
        MAX_FRAMES_IN_FLIGHT ∧
    (RendererState.mk false 0 0 6).isFrameStarted = false ∧
    (RendererState.mk false 0 0 6).currentFrameIndex <
      MAX_FRAMES_IN_FLIGHT :=
  c8_endFrame_advance ⟨true, 0, 1, 5⟩
    ⟨.success, 0, true, true, .errorOutOfDateKHR, false, [⟨800, 600⟩], true⟩
    ([Ev.endRecording 1, Ev.submit] ++
      [Ev.poll ⟨800, 600⟩, Ev.deviceWaitIdle, Ev.construct ⟨800, 600⟩])
    ⟨false, 0, 0, 6⟩ (by decide)

end Engine
